import Mathlib

/-!
Verification development for the open-strudel-samples repository.

The development shallowly embeds the core of the application:

* the JSON value domain (`JsonValue`) with the JavaScript coercions the
  source relies on (truthiness, string coercion, `Object.entries`);
* the `Sound` / `LoadedRepository` data model (`src/types/strudel.ts`);
* the sound extractor `extractSounds` (`src/utils/sound-processor.ts`);
* the library store `useSoundStore` (store/soundStore.ts) as a pure state
  type `SoundStore` with one Lean function per store action;
* the export/import transfer format `exportToJson` / `parseImportData`
  (`src/utils/github-api.ts`, export version 3.0);
* the persistence adapter `storage.getItem` of the store configuration.

JavaScript arrays are lists, JS `Set` values are duplicate-free lists in
insertion order, and JSON numbers are integers (no claim touches
non-integral numerics).  Fallible JavaScript code (property access on
`null`, `JSON.parse` failure, thrown `Error`) is embedded with `Except`.
-/

/-- The decimal digit `d` (`d < 10`) as a one-character string. -/
def digitStr (d : Nat) : String :=
  match d with
  | 0 => "0" | 1 => "1" | 2 => "2" | 3 => "3" | 4 => "4"
  | 5 => "5" | 6 => "6" | 7 => "7" | 8 => "8" | 9 => "9"
  | _ => ""

/-- Fuelled digit expansion for `natToString` (the fuel is structurally
consumed so the kernel can evaluate it; `n + 1` units always suffice). -/
def natToStrAux : Nat → Nat → String
  | 0, _ => ""
  | fuel + 1, n => if n < 10 then digitStr n else natToStrAux fuel (n / 10) ++ digitStr (n % 10)

/-- Decimal rendering of a natural number (JavaScript `` `${index}` `` for
array indices). -/
def natToString (n : Nat) : String := natToStrAux (n + 1) n

/-- Decimal rendering of an integer (JavaScript `String(number)` for
integral numbers). -/
def intToString (i : Int) : String :=
  if i < 0 then "-" ++ natToString i.natAbs else natToString i.toNat

/-- The whitespace characters recognised by JavaScript
`String.prototype.trim` (ASCII subset). -/
def jsIsSpace (c : Char) : Bool :=
  c == ' ' || c == '\t' || c == '\n' || c == '\r' || c == '\x0b' || c == '\x0c'

/-- JavaScript `String.prototype.trim`: strip leading and trailing
whitespace. -/
def jsTrim (s : String) : String :=
  ((s.data.dropWhile jsIsSpace).reverse.dropWhile jsIsSpace).reverse.asString

/-- JavaScript `String.prototype.startsWith`. -/
def jsStartsWith (s pre : String) : Bool :=
  pre.data.isPrefixOf s.data

/-- Does `sub` occur as a contiguous run inside the character list? -/
def listContainsSub (sub : List Char) : List Char → Bool
  | [] => sub.isEmpty
  | c :: cs => sub.isPrefixOf (c :: cs) || listContainsSub sub cs

/-- JavaScript `String.prototype.includes`: substring containment. -/
def jsStrIncludes (s sub : String) : Bool :=
  listContainsSub sub.data s.data

/-- Join a list of strings with commas (JavaScript `Array.prototype.join`
with the default separator). -/
def joinComma : List String → String
  | [] => ""
  | [x] => x
  | x :: xs => x ++ "," ++ joinComma xs

/-- JSON value domain produced by `JSON.parse`.  Object fields are kept in
insertion order; values coming from `JSON.parse` have pairwise distinct
keys. -/
inductive JsonValue where
  | null : JsonValue
  | bool : Bool → JsonValue
  | num : Int → JsonValue
  | str : String → JsonValue
  | arr : List JsonValue → JsonValue
  | obj : List (String × JsonValue) → JsonValue
deriving Inhabited

namespace JsonValue

/-- JavaScript truthiness of a value. -/
def truthy : JsonValue → Bool
  | .null => false
  | .bool b => b
  | .num n => n != 0
  | .str s => s != ""
  | .arr _ => true
  | .obj _ => true

/-- Property lookup `v[k]` on a non-null value: `some` is a present field,
`none` is JavaScript `undefined`.  (Access on `null` throws and is handled
at the call sites that can receive `null`.) -/
def getField : JsonValue → String → Option JsonValue
  | .obj fields, k => (fields.find? (fun p => p.1 == k)).map (·.2)
  | _, _ => none

/-- Is the value JSON `null`? -/
def isNull : JsonValue → Bool
  | .null => true
  | _ => false

/-- JavaScript string coercion (`String(v)` / `v + ""`): array elements
are coerced recursively and joined with commas, with `null` entries
rendered as the empty string; objects render as `[object Object]`. -/
def jsToStringDeep : JsonValue → String
  | .null => "null"
  | .bool b => cond b "true" "false"
  | .num n => intToString n
  | .str s => s
  | .arr xs => joinComma (xs.attach.map (fun x => if isNull x.1 then "" else jsToStringDeep x.1))
  | .obj _ => "[object Object]"
decreasing_by
  have h := List.sizeOf_lt_of_mem x.2
  simp only [JsonValue.arr.sizeOf_spec]
  omega

/-- One-step unfolding of `jsToStringDeep`, kept as its own definition so
that the kernel can evaluate the non-recursive cases (the recursive array
case is compiled by well-founded recursion). -/
def jsToString : JsonValue → String
  | .null => "null"
  | .bool b => cond b "true" "false"
  | .num n => intToString n
  | .str s => s
  | .arr xs => joinComma (xs.map (fun x => if isNull x then "" else jsToStringDeep x))
  | .obj _ => "[object Object]"

/-- Entries of a value, as `Object.entries(v)` on a non-null value: object fields in insertion
order, array elements and string characters under their index keys, and
the empty list for boxed primitives. -/
def jsEntries : JsonValue → List (String × JsonValue)
  | .obj fields => fields
  | .arr xs => xs.enum.map (fun p => (natToString p.1, p.2))
  | .str s => s.data.enum.map (fun p => (natToString p.1, .str (String.singleton p.2)))
  | _ => []

end JsonValue

/-- One playable audio reference (`Sound` in `src/types/strudel.ts`). -/
structure Sound where
  id : String
  name : String
  url : String
  category : Option String
  repository : String
  owner : String
  path : String
deriving Repr, DecidableEq, Inhabited

/-- One fetched and parsed manifest plus its sounds (`LoadedRepository` in
`src/types/strudel.ts`). -/
structure LoadedRepository where
  owner : String
  repo : String
  path : String
  branch : String
  strudel_json_url : String
  raw_json_url : String
  sounds : List Sound
  loaded_at : String
deriving Repr, DecidableEq, Inhabited

/-- A remembered custom manifest URL.  Modelled from the spec: the
`CustomUrlRepository` type declaration (`{url, name}` pairs, spec section 3)
is referenced by `src/utils/github-api.ts` but its declaration file is not
part of the source snapshot. -/
structure CustomUrlRepository where
  url : String
  name : String
deriving Repr, DecidableEq, Inhabited

/-- JS `Set.add`: append the element unless already present (insertion
order is preserved, re-adding keeps the original position). -/
def setAdd (l : List String) (k : String) : List String :=
  if l.contains k then l else l ++ [k]

/-- Set construction `new Set(list)`: drop duplicates, keeping first occurrences in order. -/
def setOfList (l : List String) : List String :=
  l.foldl setAdd []

/-- State of the library store `useSoundStore` (store/soundStore.ts).
`collapsedRepos` and `blockedRepos` are JS `Set`s, embedded as
duplicate-free lists in insertion order.  The `customUrls` registry is
modelled from the spec (section 3): the snapshotted store file predates
the custom-URL registry that the export/import component uses. -/
structure SoundStore where
  previewRepositories : List LoadedRepository
  savedRepositories : List LoadedRepository
  currentlyPlaying : Option String
  collapsedRepos : List String
  blockedRepos : List String
  customUrls : List CustomUrlRepository
deriving Repr, DecidableEq, Inhabited

/-- Initial store state: all collections empty, nothing playing. -/
def initialStore : SoundStore :=
  { previewRepositories := []
    savedRepositories := []
    currentlyPlaying := none
    collapsedRepos := []
    blockedRepos := []
    customUrls := [] }

/-- Store getter `getRepositoryKey`: the repository key joining every collection. -/
def getRepositoryKey (r : LoadedRepository) : String :=
  r.owner ++ "/" ++ r.repo ++ "/" ++ r.path

/-- Store action `addPreview`: replace the entry with the same key in place, else
append. -/
def addPreview (st : SoundStore) (repository : LoadedRepository) : SoundStore :=
  let key := getRepositoryKey repository
  if st.previewRepositories.any (fun repo => getRepositoryKey repo == key) then
    { st with
      previewRepositories := st.previewRepositories.map
        (fun repo => if getRepositoryKey repo == key then repository else repo) }
  else
    { st with previewRepositories := st.previewRepositories ++ [repository] }

/-- Store action `removePreview`. -/
def removePreview (st : SoundStore) (repoKey : String) : SoundStore :=
  { st with
    previewRepositories := st.previewRepositories.filter
      (fun repo => getRepositoryKey repo != repoKey) }

/-- Store action `clearPreviews`. -/
def clearPreviews (st : SoundStore) : SoundStore :=
  { st with previewRepositories := [], currentlyPlaying := none }

/-- Store action `saveRepository`: no-op when the key is already saved, else append to
Saved and drop the key from Preview. -/
def saveRepository (st : SoundStore) (repository : LoadedRepository) : SoundStore :=
  let key := getRepositoryKey repository
  if st.savedRepositories.any (fun repo => getRepositoryKey repo == key) then
    st
  else
    { st with
      savedRepositories := st.savedRepositories ++ [repository]
      previewRepositories := st.previewRepositories.filter
        (fun repo => getRepositoryKey repo != key) }

/-- Store action `unsaveRepository`. -/
def unsaveRepository (st : SoundStore) (repoKey : String) : SoundStore :=
  { st with
    savedRepositories := st.savedRepositories.filter
      (fun repo => getRepositoryKey repo != repoKey) }

/-- Store action `setCurrentlyPlaying`. -/
def setCurrentlyPlaying (st : SoundStore) (soundId : Option String) : SoundStore :=
  { st with currentlyPlaying := soundId }

/-- Store action `importRepositories`: replace Saved wholesale. -/
def importRepositories (st : SoundStore) (repositories : List LoadedRepository) : SoundStore :=
  { st with savedRepositories := repositories }

/-- Store action `importBlocklist`: replace Blocked with `new Set(blocklist)`. -/
def importBlocklist (st : SoundStore) (blocklist : List String) : SoundStore :=
  { st with blockedRepos := setOfList blocklist }

/-- Store action `importCustomUrls`.  Modelled from the spec (section 4.5): the store
action used by the import component replaces the custom-URL registry
wholesale; the snapshotted store file predates it. -/
def importCustomUrls (st : SoundStore) (customUrls : List CustomUrlRepository) : SoundStore :=
  { st with customUrls := customUrls }

/-- Store action `toggleCollapsed`: flip membership of the key in the collapsed set. -/
def toggleCollapsed (st : SoundStore) (repoKey : String) : SoundStore :=
  if st.collapsedRepos.contains repoKey then
    { st with collapsedRepos := st.collapsedRepos.filter (fun k => k != repoKey) }
  else
    { st with collapsedRepos := st.collapsedRepos ++ [repoKey] }

/-- Store action `blockRepository`: add the key to Blocked and drop it from Preview and
Saved. -/
def blockRepository (st : SoundStore) (repoKey : String) : SoundStore :=
  { st with
    blockedRepos := setAdd st.blockedRepos repoKey
    previewRepositories := st.previewRepositories.filter
      (fun repo => getRepositoryKey repo != repoKey)
    savedRepositories := st.savedRepositories.filter
      (fun repo => getRepositoryKey repo != repoKey) }

/-- Store action `unblockRepository`. -/
def unblockRepository (st : SoundStore) (repoKey : String) : SoundStore :=
  { st with blockedRepos := st.blockedRepos.filter (fun k => k != repoKey) }

/-- Store action `clearBlocklist`. -/
def clearBlocklist (st : SoundStore) : SoundStore :=
  { st with blockedRepos := [] }

/-- Store query `isSaved`: membership in Saved by key. -/
def isSaved (st : SoundStore) (repoKey : String) : Bool :=
  st.savedRepositories.any (fun repo => getRepositoryKey repo == repoKey)

/-- Store query `isCollapsed`: membership in the collapsed set. -/
def isCollapsed (st : SoundStore) (repoKey : String) : Bool :=
  st.collapsedRepos.contains repoKey

/-- Store query `isBlocked`: membership in the blocklist. -/
def isBlocked (st : SoundStore) (repoKey : String) : Bool :=
  st.blockedRepos.contains repoKey

/-- Store query `getPreviewRepository`: lookup by key in Preview. -/
def getPreviewRepository (st : SoundStore) (repoKey : String) : Option LoadedRepository :=
  st.previewRepositories.find? (fun repo => getRepositoryKey repo == repoKey)

/-- Store query `getAllPreviewSounds`: flattened Preview sound list. -/
def getAllPreviewSounds (st : SoundStore) : List Sound :=
  st.previewRepositories.flatMap (·.sounds)

/-- Store query `getAllSavedSounds`: flattened Saved sound list. -/
def getAllSavedSounds (st : SoundStore) : List Sound :=
  st.savedRepositories.flatMap (·.sounds)

/-- Store query `getBlockedRepos`: `Array.from` of the blocked set. -/
def getBlockedRepos (st : SoundStore) : List String :=
  st.blockedRepos

/-- Store states that can arise at run time: the initial state followed by
any sequence of store actions. -/
inductive Reachable : SoundStore → Prop where
  | init : Reachable initialStore
  | addPreview {st} (r : LoadedRepository) : Reachable st → Reachable (addPreview st r)
  | removePreview {st} (k : String) : Reachable st → Reachable (removePreview st k)
  | clearPreviews {st} : Reachable st → Reachable (clearPreviews st)
  | saveRepository {st} (r : LoadedRepository) : Reachable st → Reachable (saveRepository st r)
  | unsaveRepository {st} (k : String) : Reachable st → Reachable (unsaveRepository st k)
  | setCurrentlyPlaying {st} (s : Option String) :
      Reachable st → Reachable (setCurrentlyPlaying st s)
  | importRepositories {st} (rs : List LoadedRepository) :
      Reachable st → Reachable (importRepositories st rs)
  | importBlocklist {st} (bs : List String) : Reachable st → Reachable (importBlocklist st bs)
  | importCustomUrls {st} (cs : List CustomUrlRepository) :
      Reachable st → Reachable (importCustomUrls st cs)
  | toggleCollapsed {st} (k : String) : Reachable st → Reachable (toggleCollapsed st k)
  | blockRepository {st} (k : String) : Reachable st → Reachable (blockRepository st k)
  | unblockRepository {st} (k : String) : Reachable st → Reachable (unblockRepository st k)
  | clearBlocklist {st} : Reachable st → Reachable (clearBlocklist st)

/-- The test `typeof v === "object"` for a JSON value (`true` for objects, arrays
and `null`). -/
def typeofIsObject : JsonValue → Bool
  | .obj _ => true
  | .arr _ => true
  | .null => true
  | _ => false

/-- The `resolveUrl` helper of `extractSounds`: absolute URLs pass
through, otherwise the base (when non-empty) is prepended. -/
def resolveUrl (baseUrl url : String) : String :=
  if jsStartsWith url "http://" || jsStartsWith url "https://" then url
  else if baseUrl != "" then baseUrl ++ url
  else url

/-- One category of `extractSounds`: the body of the
`Object.entries(...).forEach(([category, urls]) => ...)` loop.  A
non-array value is wrapped in a one-element array; entries that are not
strings, or whose trimmed text is empty, emit nothing. -/
def emitCategory (baseUrl owner repo filePath category : String)
    (urls : JsonValue) : List Sound :=
  let urlArray := match urls with | .arr l => l | v => [v]
  urlArray.enum.filterMap (fun p =>
    match p.2 with
    | .str s =>
      if jsTrim s != "" then
        some
          { id := owner ++ "/" ++ repo ++ "/" ++ category ++ "/" ++ natToString p.1
            name := category ++ (if urlArray.length > 1 then "-" ++ natToString (p.1 + 1) else "")
            url := resolveUrl baseUrl (jsTrim s)
            category := some category
            repository := owner ++ "/" ++ repo
            owner := owner
            path := filePath }
      else none
    | _ => none)

/-- The base URL `strudelJson._base || ""`: the `_base` field when truthy
(coerced to a string, as concatenation would), else the empty string.
Field access on `null` throws and is handled in `extractSounds`. -/
def manifestBase (v : JsonValue) : String :=
  match v.getField "_base" with
  | some b => if b.truthy then b.jsToString else ""
  | none => ""

/-- The selection `strudelJson.sounds || strudelJson.samples` (`none` is JavaScript
`undefined`). -/
def manifestSoundsData (v : JsonValue) : Option JsonValue :=
  match v.getField "sounds" with
  | some s => if s.truthy then some s else v.getField "samples"
  | none => v.getField "samples"

/-- The extractor `extractSounds` (`src/utils/sound-processor.ts`): walk the manifest in
its nested shape (a truthy object-typed `sounds`/`samples` value) or its
flat shape (every non-underscore top-level key is a category).  The
function throws only when the manifest itself is `null`, where the very
first property access `strudelJson._base` raises a `TypeError`. -/
def extractSounds (strudelJson : JsonValue) (owner repo filePath : String) :
    Except String (List Sound) :=
  match strudelJson with
  | .null => .error "TypeError: cannot read properties of null"
  | v =>
    let baseUrl := manifestBase v
    match manifestSoundsData v with
    | some soundsData =>
      if soundsData.truthy && typeofIsObject soundsData then
        .ok (soundsData.jsEntries.flatMap (fun p =>
          emitCategory baseUrl owner repo filePath p.1 p.2))
      else
        .ok (v.jsEntries.flatMap (fun p =>
          if p.1 == "_base" || p.1.startsWith "_" then []
          else emitCategory baseUrl owner repo filePath p.1 p.2))
    | none =>
      .ok (v.jsEntries.flatMap (fun p =>
        if p.1 == "_base" || p.1.startsWith "_" then []
        else emitCategory baseUrl owner repo filePath p.1 p.2))

/-- JSON encoding of a `Sound` under `JSON.stringify`: an absent optional
`category` is `undefined` and is dropped from the output object. -/
def encodeSound (s : Sound) : JsonValue :=
  .obj ([("id", .str s.id), ("name", .str s.name), ("url", .str s.url)] ++
    (match s.category with
      | some c => [("category", .str c)]
      | none => []) ++
    [("repository", .str s.repository), ("owner", .str s.owner), ("path", .str s.path)])

/-- JSON encoding of a `LoadedRepository` under `JSON.stringify`. -/
def encodeRepo (r : LoadedRepository) : JsonValue :=
  .obj [("owner", .str r.owner), ("repo", .str r.repo), ("path", .str r.path),
        ("branch", .str r.branch), ("strudel_json_url", .str r.strudel_json_url),
        ("raw_json_url", .str r.raw_json_url),
        ("sounds", .arr (r.sounds.map encodeSound)),
        ("loaded_at", .str r.loaded_at)]

/-- JSON encoding of a `CustomUrlRepository` under `JSON.stringify`. -/
def encodeCustomUrl (c : CustomUrlRepository) : JsonValue :=
  .obj [("url", .str c.url), ("name", .str c.name)]

/-- Decode every element of a list, failing when any element fails. -/
def decodeList {α : Type} (f : JsonValue → Option α) : List JsonValue → Option (List α)
  | [] => some []
  | x :: xs => do
    let y ← f x
    let ys ← decodeList f xs
    some (y :: ys)

/-- String field of an encoded record. -/
def getStrField (v : JsonValue) (k : String) : Option String :=
  match v.getField k with
  | some (.str s) => some s
  | _ => none

/-- Decoder for `encodeSound`, witnessing that the encoding loses
nothing. -/
def decodeSound (v : JsonValue) : Option Sound := do
  let id ← getStrField v "id"
  let name ← getStrField v "name"
  let url ← getStrField v "url"
  let category := getStrField v "category"
  let repository ← getStrField v "repository"
  let owner ← getStrField v "owner"
  let path ← getStrField v "path"
  some { id := id, name := name, url := url, category := category,
         repository := repository, owner := owner, path := path }

/-- Decoder for `encodeRepo`, witnessing that the encoding loses
nothing. -/
def decodeRepo (v : JsonValue) : Option LoadedRepository := do
  let owner ← getStrField v "owner"
  let repo ← getStrField v "repo"
  let path ← getStrField v "path"
  let branch ← getStrField v "branch"
  let strudelUrl ← getStrField v "strudel_json_url"
  let rawUrl ← getStrField v "raw_json_url"
  let sounds ← match v.getField "sounds" with
    | some (.arr xs) => decodeList decodeSound xs
    | _ => none
  let loadedAt ← getStrField v "loaded_at"
  some { owner := owner, repo := repo, path := path, branch := branch,
         strudel_json_url := strudelUrl, raw_json_url := rawUrl,
         sounds := sounds, loaded_at := loadedAt }

/-- Decoder for `encodeCustomUrl`. -/
def decodeCustomUrl (v : JsonValue) : Option CustomUrlRepository := do
  let url ← getStrField v "url"
  let name ← getStrField v "name"
  some { url := url, name := name }

/-- Decoder for a string entry of the blocklist array. -/
def decodeStr (v : JsonValue) : Option String :=
  match v with
  | .str s => some s
  | _ => none

/-- The serializer `exportToJson` (`src/utils/github-api.ts`): build the version-3.0
export envelope.  `JSON.stringify` and the later `JSON.parse` are mutually
inverse on the JSON value domain, so the serialized text is represented by
the envelope value itself; `exportedAt` stands for
`new Date().toISOString()`. -/
def exportToJson (exportedAt : String) (repositories : List LoadedRepository)
    (blocklist : List String) (customUrls : List CustomUrlRepository) : JsonValue :=
  .obj [("version", .str "3.0"),
        ("exported_at", .str exportedAt),
        ("repositories", .arr (repositories.map encodeRepo)),
        ("blocklist", .arr (blocklist.map .str)),
        ("customUrls", .arr (customUrls.map encodeCustomUrl))]

/-- Truthiness of a possibly-`undefined` property value. -/
def truthyOpt : Option JsonValue → Bool
  | some v => v.truthy
  | none => false

/-- The test `Array.isArray` on a possibly-`undefined` property value. -/
def isArrayOpt : Option JsonValue → Bool
  | some (.arr _) => true
  | _ => false

/-- Property assignment `obj[k] = v`: replace the field in place, or
append it when absent. -/
def objSetField (fields : List (String × JsonValue)) (k : String) (v : JsonValue) :
    List (String × JsonValue) :=
  if fields.any (fun p => p.1 == k) then
    fields.map (fun p => if p.1 == k then (k, v) else p)
  else fields ++ [(k, v)]

/-- The statement `if (!data[k]) data[k] = []`: default a falsy or missing field to the
empty array.  (Assignment on a non-object primitive is silently ignored,
as in sloppy-mode JavaScript; that branch is unreachable from
`parseImportData`.) -/
def defaultEmptyArray (v : JsonValue) (k : String) : JsonValue :=
  if truthyOpt (v.getField k) then v
  else match v with
    | .obj fields => .obj (objSetField fields k (.arr []))
    | v => v

/-- The deserializer `parseImportData` (`src/utils/github-api.ts`): `JSON.parse` the input
(`none` models text that is not valid JSON, which throws before any
check), require a truthy `version` and an array-typed `repositories`,
default missing or falsy `blocklist` / `customUrls` to empty arrays, and
return the (mutated) parsed object.  Reading `data.version` from a parsed
`null` throws a TypeError that the surrounding catch converts into the
same kind of failure. -/
def parseImportData (input : Option JsonValue) : Except String JsonValue :=
  match input with
  | none => .error "Failed to parse import data: Invalid JSON"
  | some .null => .error "Failed to parse import data: Cannot read properties of null"
  | some data =>
    if !truthyOpt (data.getField "version") || !truthyOpt (data.getField "repositories")
        || !isArrayOpt (data.getField "repositories") then
      .error "Failed to parse import data: Invalid export data format"
    else
      .ok (defaultEmptyArray (defaultEmptyArray data "blocklist") "customUrls")

/-- JavaScript `x.length > 0` for a property value that may not be an
array: arrays and strings report their length, anything else has an
`undefined` length and compares false. -/
def jsLengthPos : JsonValue → Bool
  | .arr xs => decide (0 < xs.length)
  | .str s => decide (0 < s.data.length)
  | _ => false

/-- The import flow `confirmImport` of the export/import component: parse the selected
file and, on success, replace Saved with the imported repositories and —
when present and non-empty — replace the blocklist and the custom-URL
registry; on failure only a toast is shown and the store is not touched.
On the success path the untyped imported arrays enter the typed store
through the decoders (elements of unexpected shape are dropped at the
typed boundary); the failure path is exact. -/
def confirmImport (st : SoundStore) (input : Option JsonValue) : SoundStore :=
  match parseImportData input with
  | .error _ => st
  | .ok data =>
    let st1 := importRepositories st
      (match data.getField "repositories" with
        | some (.arr xs) => xs.filterMap decodeRepo
        | _ => [])
    let st2 :=
      match data.getField "blocklist" with
      | some bv =>
        if bv.truthy && jsLengthPos bv then
          importBlocklist st1 (match bv with | .arr xs => xs.filterMap decodeStr | _ => [])
        else st1
      | none => st1
    match data.getField "customUrls" with
    | some cv =>
      if cv.truthy && jsLengthPos cv then
        importCustomUrls st2 (match cv with | .arr xs => xs.filterMap decodeCustomUrl | _ => [])
      else st2
    | none => st2

/-- Text stored under the persistence key, as seen by `storage.getItem`:
nothing (or the empty string, which the `if (!str)` guard also treats as
absent), non-empty text that is not valid JSON (where `JSON.parse`
throws), or valid JSON text abstracted by its parsed value. -/
inductive StoredText where
  | absent : StoredText
  | corrupt : StoredText
  | parsed : JsonValue → StoredText

/-- JavaScript SameValueZero equality restricted to `JSON.parse` output:
freshly parsed objects and arrays are distinct references and never
compare equal, primitives compare by value. -/
def jsPrimEq : JsonValue → JsonValue → Bool
  | .null, .null => true
  | .bool a, .bool b => a == b
  | .num a, .num b => a == b
  | .str a, .str b => a == b
  | _, _ => false

/-- Set construction `new Set(array)` over parsed JSON elements: drop SameValueZero
duplicates, keeping first occurrences in insertion order. -/
def jsSetOfArr (xs : List JsonValue) : List JsonValue :=
  xs.foldl (fun acc x => if acc.any (fun y => jsPrimEq y x) then acc else acc ++ [x]) []

/-- The conversion `if (s[k] && Array.isArray(s[k])) s[k] = new Set(s[k])` — the Set is
represented by its deduplicated element array. -/
def convertSetField (stv : JsonValue) (k : String) : JsonValue :=
  match stv.getField k with
  | some (.arr xs) =>
    (match stv with
      | .obj fields => .obj (objSetField fields k (.arr (jsSetOfArr xs)))
      | s => s)
  | _ => stv

/-- Template-literal rendering `` `${repo[k]}` `` of a field: coerced to a
string, with a missing field rendering as `undefined`. -/
def jsFieldTemplate (v : JsonValue) (k : String) : String :=
  match v.getField k with
  | some x => x.jsToString
  | none => "undefined"

/-- The key computed inside the legacy-migration filter:
`` `${repo.owner}/${repo.repo}/${repo.path}` ``; field access on a `null`
element throws. -/
def migrationKey (repo : JsonValue) : Except String String :=
  match repo with
  | .null => .error "TypeError: cannot read properties of null"
  | v => .ok (jsFieldTemplate v "owner" ++ "/" ++ jsFieldTemplate v "repo" ++ "/" ++
      jsFieldTemplate v "path")

/-- The membership test `favoriteRepos.includes(key)`: array membership by SameValueZero,
substring test on a string receiver, and a TypeError on any other truthy
receiver (which has no `includes` method). -/
def favoriteIncludes (favs : JsonValue) (key : String) : Except String Bool :=
  match favs with
  | .arr xs => .ok (xs.any (fun x => jsPrimEq x (.str key)))
  | .str s => .ok (jsStrIncludes s key)
  | _ => .error "TypeError: includes is not a function"

/-- The legacy-migration `filter` body, evaluated left to right; the first
throwing element aborts the whole `getItem` call. -/
def migrationFilter (favs : JsonValue) : List JsonValue → Except String (List JsonValue)
  | [] => .ok []
  | repo :: rest => do
    let key ← migrationKey repo
    let keep ← favoriteIncludes favs key
    let tail ← migrationFilter favs rest
    .ok (if keep then repo :: tail else tail)

/-- The expression `data.state.loadedRepositories?.filter(...) || []`: optional chaining
turns a missing or `null` list into `undefined`, which `|| []` replaces by
the empty array; a non-array, non-null value has no `filter` method and
throws. -/
def migrationSaved (stv favs : JsonValue) : Except String JsonValue :=
  match stv.getField "loadedRepositories" with
  | none => .ok (.arr [])
  | some .null => .ok (.arr [])
  | some (.arr xs) => do
    let ys ← migrationFilter favs xs
    .ok (.arr ys)
  | some _ => .error "TypeError: filter is not a function"

/-- The legacy `favoriteRepos` migration of `storage.getItem`: when the
old favorites list is present and the current saved-repositories field is
absent, reconstruct it by filtering the legacy full repository list. -/
def migrateState (stv : JsonValue) : Except String JsonValue :=
  if truthyOpt (stv.getField "favoriteRepos") && !truthyOpt (stv.getField "savedRepositories") then
    match stv.getField "favoriteRepos" with
    | some favs => do
      let saved ← migrationSaved stv favs
      .ok (match stv with
        | .obj fields => .obj (objSetField fields "savedRepositories" saved)
        | s => s)
    | none => .ok stv
  else .ok stv

/-- The persistence adapter `storage.getItem` of the persist configuration of the store
(store/soundStore.ts): absent text yields `null`; `JSON.parse` throws on
corrupt text; on a parsed value the set-valued fields are converted back
to Sets and the legacy favorites migration runs, each step throwing where
the JavaScript would (property access on a parsed `null`, `includes` or
`filter` called on values without them). -/
def storageGetItem : StoredText → Except String (Option JsonValue)
  | .absent => .ok none
  | .corrupt => .error "SyntaxError: Unexpected token in JSON"
  | .parsed data =>
    match data with
    | .null => .error "TypeError: cannot read properties of null"
    | data =>
      match data.getField "state" with
      | some stv =>
        if stv.truthy then do
          let stv1 := convertSetField stv "collapsedRepos"
          let stv2 := convertSetField stv1 "blockedRepos"
          let stv3 ← migrateState stv2
          .ok (some (match data with
            | .obj fields => .obj (objSetField fields "state" stv3)
            | d => d))
        else .ok (some data)
      | none => .ok (some data)

/-- Modelled from the spec: the persist middleware around
`storage.getItem` (the zustand `persist` wrapper, a dependency outside
this repository) shallow-merges the persisted durable fields into the
fresh store at startup.  The untyped stored fields enter the typed store
through the decoders; fields of unexpected shape are ignored. -/
def mergeStored (st : SoundStore) (v : JsonValue) : SoundStore :=
  match v.getField "state" with
  | some sv =>
    { st with
      savedRepositories :=
        (match sv.getField "savedRepositories" with
          | some (.arr xs) => xs.filterMap decodeRepo
          | _ => st.savedRepositories)
      collapsedRepos :=
        (match sv.getField "collapsedRepos" with
          | some (.arr xs) => setOfList (xs.filterMap decodeStr)
          | _ => st.collapsedRepos)
      blockedRepos :=
        (match sv.getField "blockedRepos" with
          | some (.arr xs) => setOfList (xs.filterMap decodeStr)
          | _ => st.blockedRepos) }
  | none => st

/-- Modelled from the spec: startup rehydration.  The persist middleware
(zustand, outside this repository) calls `storage.getItem` inside a
try/catch; any thrown error is caught, hydration is skipped, and the
store keeps its initial empty collections — corrupt stored data is
treated as absent (spec section 4.4). -/
def rehydrate (stored : StoredText) : SoundStore :=
  match storageGetItem stored with
  | .error _ => initialStore
  | .ok none => initialStore
  | .ok (some v) => mergeStored initialStore v

/-- A concrete repository used by the counterexample states. -/
def cexRepo : LoadedRepository :=
  { owner := "o", repo := "r", path := "p", branch := "main",
    strudel_json_url := "su", raw_json_url := "ru", sounds := [], loaded_at := "t" }

/-- A reachable store in which `cexRepo` sits in Saved and in Preview at
the same time: it was saved, then loaded into preview again. -/
def cexStore : SoundStore :=
  addPreview (saveRepository (addPreview initialStore cexRepo) cexRepo) cexRepo

/-- A concrete repository used to instantiate theorems at a witness input. -/
def wRepo : LoadedRepository :=
  { owner := "alice", repo := "kit", path := "strudel.json", branch := "main",
    strudel_json_url := "su", raw_json_url := "ru", sounds := [], loaded_at := "t0" }

/-- The `sortBy` criterion of `sortSounds`
(`src/utils/sound-processor.ts`). -/
inductive SortBy where
  | name : SortBy
  | category : SortBy
  | repository : SortBy
deriving Repr, DecidableEq

/-- The comparator value of `a.localeCompare(b)`, modelled as code-point
comparison; no claim depends on the locale-specific order, only on the
comparator being total. -/
def strCompare (a b : String) : Int :=
  match compare a b with
  | .lt => -1
  | .eq => 0
  | .gt => 1

/-- The comparator of `sortSounds` (`a.category || ""` falls back to the
empty string for a missing category). -/
def soundCompare (sortBy : SortBy) (a b : Sound) : Int :=
  match sortBy with
  | .name => strCompare a.name b.name
  | .category => strCompare (a.category.getD "") (b.category.getD "")
  | .repository => strCompare a.repository b.repository

/-- The sorter `sortSounds` (`src/utils/sound-processor.ts`): `[...sounds].sort(...)`
sorts a spread copy in place and returns it, leaving the input array
untouched; in the value semantics used here that is a stable sort of the
list value. -/
def sortSounds (sounds : List Sound) (sortBy : SortBy) : List Sound :=
  sounds.mergeSort (fun a b => decide (soundCompare sortBy a b ≤ 0))

/-- The end-to-end manifest of the spec scenario:
`{"_base":"https://cdn.example/","sounds":{"kick":["k1.wav","https://other.cdn/k2.wav"]}}`. -/
def c3manifest : JsonValue :=
  .obj [("_base", .str "https://cdn.example/"),
        ("sounds", .obj [("kick", .arr [.str "k1.wav", .str "https://other.cdn/k2.wav"])])]

/-- Does a category entry produce a sound record? (Exactly the guard
`typeof url === "string" && url.trim()` of `extractSounds`.) -/
def isEmittable : JsonValue → Bool
  | .str s => jsTrim s != ""
  | _ => false

/-- Does the parsed value carry a truthy `version` field? -/
def hasTruthyVersion (v : JsonValue) : Bool := truthyOpt (v.getField "version")

/-- Does the parsed value carry an array-typed `repositories` field? -/
def hasArrayRepositories (v : JsonValue) : Bool := isArrayOpt (v.getField "repositories")

/-- A concrete sound used to give the witness repositories distinct payloads. -/
def wSound : Sound :=
  { id := "alice/kit/kick/0", name := "kick", url := "https://cdn.example/k.wav",
    category := some "kick", repository := "alice/kit", owner := "alice",
    path := "strudel.json" }

/-- Same repository key as `wRepo` but a different payload (different
sounds and timestamp). -/
def wRepo2 : LoadedRepository :=
  { wRepo with sounds := [wSound], loaded_at := "t1" }

/-- Is an entry with repository key `k` present in the list? -/
def keyMem (k : String) (l : List LoadedRepository) : Bool :=
  l.any (fun r => getRepositoryKey r == k)

/-- Number of entries carrying repository key `k`. -/
def countKey (k : String) (l : List LoadedRepository) : Nat :=
  (l.filter (fun r => getRepositoryKey r == k)).length

lemma keyMem_filter_ne (k : String) (l : List LoadedRepository) :
    keyMem k (l.filter (fun r => getRepositoryKey r != k)) = false := by
  simp [keyMem, List.any_eq_true, List.mem_filter]

lemma keyMem_append_self (k : String) (l : List LoadedRepository) (r : LoadedRepository)
    (h : getRepositoryKey r = k) : keyMem k (l ++ [r]) = true := by
  simp [keyMem, List.any_append, h]

lemma filter_key_eq_nil (k : String) (l : List LoadedRepository)
    (h : keyMem k l = false) : l.filter (fun r => getRepositoryKey r == k) = [] := by
  simp [keyMem] at h
  exact List.filter_eq_nil_iff.mpr (by simpa using h)

lemma countKey_eq_one (k : String) (l : List LoadedRepository) (r : LoadedRepository)
    (h : keyMem k l = false) (hr : getRepositoryKey r = k) :
    countKey k (l ++ [r]) = 1 := by
  simp [countKey, List.filter_append, filter_key_eq_nil k l h, hr]

lemma saveRepository_def (st : SoundStore) (r : LoadedRepository) :
    saveRepository st r =
      if keyMem (getRepositoryKey r) st.savedRepositories then st
      else { st with
             savedRepositories := st.savedRepositories ++ [r]
             previewRepositories := (st.previewRepositories.filter
               (fun repo => getRepositoryKey repo != getRepositoryKey r)) } := rfl

lemma addPreview_def (st : SoundStore) (r : LoadedRepository) :
    addPreview st r =
      if keyMem (getRepositoryKey r) st.previewRepositories then
        { st with previewRepositories := (st.previewRepositories.map
            (fun repo => if getRepositoryKey repo == getRepositoryKey r then r else repo)) }
      else { st with previewRepositories := st.previewRepositories ++ [r] } := rfl

/-- Claim C1, counterexample: the claim says that after
`saveRepository(repo)` the key is never in Preview.  In the reachable
store `cexStore` the key of `cexRepo` is both in Saved and in Preview, so
`saveRepository` is a no-op and the key stays in Preview afterwards. -/
theorem saveRepository_preview_cex :
    Reachable cexStore ∧
    isSaved (saveRepository cexStore cexRepo) (getRepositoryKey cexRepo) = true ∧
    keyMem (getRepositoryKey cexRepo) (saveRepository cexStore cexRepo).previewRepositories
      = true := by
  refine ⟨?_, by rfl, by rfl⟩
  exact Reachable.addPreview cexRepo
    (Reachable.saveRepository cexRepo (Reachable.addPreview cexRepo Reachable.init))

/-- Claim C1, amended: after `saveRepository(repo)` the key of `repo` is
in Saved; if the key was not already in Saved it is also absent from
Preview afterwards; if it was already in Saved the call is a no-op on the
whole store state (so a key simultaneously sitting in Preview stays
there); and saving a not-yet-saved key twice leaves Saved with exactly
one entry for it, the second call being a pure no-op. -/
theorem saveRepository_spec (st : SoundStore) (r : LoadedRepository) :
    keyMem (getRepositoryKey r) (saveRepository st r).savedRepositories = true ∧
    (keyMem (getRepositoryKey r) st.savedRepositories = true → saveRepository st r = st) ∧
    (keyMem (getRepositoryKey r) st.savedRepositories = false →
      keyMem (getRepositoryKey r) (saveRepository st r).previewRepositories = false ∧
      saveRepository (saveRepository st r) r = saveRepository st r ∧
      countKey (getRepositoryKey r) (saveRepository (saveRepository st r) r).savedRepositories
        = 1) := by
  by_cases h : keyMem (getRepositoryKey r) st.savedRepositories = true
  · refine ⟨?_, fun _ => ?_, fun hf => ?_⟩
    · rw [saveRepository_def, if_pos h]; exact h
    · rw [saveRepository_def, if_pos h]
    · simp [h] at hf
  · have h' : keyMem (getRepositoryKey r) st.savedRepositories = false := by
      simpa using h
    have hsave := saveRepository_def st r
    rw [if_neg (by simp [h'])] at hsave
    have hmem : keyMem (getRepositoryKey r) (saveRepository st r).savedRepositories = true := by
      rw [hsave]; exact keyMem_append_self _ _ _ rfl
    refine ⟨hmem, fun hc => by simp [h'] at hc, fun _ => ⟨?_, ?_, ?_⟩⟩
    · rw [hsave]; exact keyMem_filter_ne _ _
    · rw [saveRepository_def (saveRepository st r) r, if_pos hmem]
    · rw [saveRepository_def (saveRepository st r) r, if_pos hmem, hsave]
      exact countKey_eq_one _ _ _ h' rfl

/-- Claim C1, witness: the amended theorem applied at the initial store
and a concrete repository. -/
theorem saveRepository_spec_witness :
    keyMem (getRepositoryKey cexRepo) (saveRepository initialStore cexRepo).savedRepositories
      = true ∧
    keyMem (getRepositoryKey cexRepo) initialStore.savedRepositories = false ∧
    countKey (getRepositoryKey cexRepo)
      (saveRepository (saveRepository initialStore cexRepo) cexRepo).savedRepositories = 1 :=
  ⟨(saveRepository_spec initialStore cexRepo).1, by rfl,
    ((saveRepository_spec initialStore cexRepo).2.2 (by rfl)).2.2⟩

lemma blockRepository_def (st : SoundStore) (k : String) :
    blockRepository st k =
      { st with
        blockedRepos := setAdd st.blockedRepos k
        previewRepositories := (st.previewRepositories.filter
          (fun repo => getRepositoryKey repo != k))
        savedRepositories := (st.savedRepositories.filter
          (fun repo => getRepositoryKey repo != k)) } := rfl

lemma setAdd_contains (l : List String) (k : String) : (setAdd l k).contains k = true := by
  simp only [setAdd]
  by_cases h : l.contains k = true
  · rw [if_pos h]; exact h
  · rw [if_neg h]; simp

/-- Claim C2: after `blockRepository(k)` the key `k` is in Blocked and no
entry with key `k` remains in Preview or Saved, so `isSaved` is false and
`isBlocked` is true — for every prior store state, including states where
`k` was saved; and a later `addPreview` or `saveRepository` under the
same key is not prevented by the blocklist. -/
theorem blockRepository_spec (st : SoundStore) (k : String) :
    isBlocked (blockRepository st k) k = true ∧
    keyMem k (blockRepository st k).previewRepositories = false ∧
    keyMem k (blockRepository st k).savedRepositories = false ∧
    isSaved (blockRepository st k) k = false ∧
    (∀ r : LoadedRepository, getRepositoryKey r = k →
      keyMem k (addPreview (blockRepository st k) r).previewRepositories = true ∧
      isSaved (saveRepository (blockRepository st k) r) k = true) := by
  have hp : keyMem k (blockRepository st k).previewRepositories = false := keyMem_filter_ne _ _
  have hs : keyMem k (blockRepository st k).savedRepositories = false := keyMem_filter_ne _ _
  refine ⟨setAdd_contains _ _, hp, hs, hs, fun r hr => ⟨?_, ?_⟩⟩
  · subst hr
    rw [addPreview_def, if_neg (by simp [hp])]
    exact keyMem_append_self _ _ _ rfl
  · subst hr
    rw [saveRepository_def, if_neg (by simp [hs])]
    show keyMem _ _ = true
    exact keyMem_append_self _ _ _ rfl

/-- Claim C2, witness: the theorem applied at the initial store, the key
`alice/kit/strudel.json` and the repository `wRepo` carrying that key. -/
theorem blockRepository_spec_witness :
    isBlocked (blockRepository initialStore "alice/kit/strudel.json") "alice/kit/strudel.json"
      = true ∧
    keyMem "alice/kit/strudel.json"
      (addPreview (blockRepository initialStore "alice/kit/strudel.json") wRepo).previewRepositories
      = true :=
  ⟨(blockRepository_spec initialStore "alice/kit/strudel.json").1,
   ((blockRepository_spec initialStore "alice/kit/strudel.json").2.2.2.2 wRepo rfl).1⟩

lemma map_key_replace (l : List LoadedRepository) (r : LoadedRepository) :
    ((l.map (fun x => if getRepositoryKey x == getRepositoryKey r then r else x)).map
        getRepositoryKey) = l.map getRepositoryKey := by
  induction l with
  | nil => rfl
  | cons x xs ih =>
    simp only [List.map_cons]
    rw [ih]
    by_cases h : (getRepositoryKey x == getRepositoryKey r) = true
    · rw [if_pos h, beq_iff_eq.mp h]
    · rw [if_neg h]

lemma keyMem_iff_mem_map (k : String) (l : List LoadedRepository) :
    keyMem k l = true ↔ k ∈ l.map getRepositoryKey := by
  simp only [keyMem, List.any_eq_true, List.mem_map, beq_iff_eq]

lemma keyMem_addPreview_self (st : SoundStore) (r : LoadedRepository) :
    keyMem (getRepositoryKey r) (addPreview st r).previewRepositories = true := by
  by_cases h : keyMem (getRepositoryKey r) st.previewRepositories = true
  · rw [addPreview_def, if_pos h]
    simp only [keyMem, List.any_eq_true] at h ⊢
    obtain ⟨x, hx, he⟩ := h
    refine ⟨r, List.mem_map.mpr ⟨x, hx, by simp [he]⟩, by simp⟩
  · rw [addPreview_def, if_neg h]
    exact keyMem_append_self _ _ _ rfl

lemma countKey_eq_count (k : String) (l : List LoadedRepository) :
    countKey k l = (l.map getRepositoryKey).count k := by
  simp only [countKey, ← List.countP_eq_length_filter]
  rw [show (l.map getRepositoryKey).count k
      = List.countP (fun a => a == k) (l.map getRepositoryKey) from rfl]
  rw [List.countP_map]
  rfl

lemma countKey_replace (l : List LoadedRepository) (r : LoadedRepository) :
    countKey (getRepositoryKey r)
        (l.map (fun x => if getRepositoryKey x == getRepositoryKey r then r else x)) =
      countKey (getRepositoryKey r) l := by
  rw [countKey_eq_count, countKey_eq_count, map_key_replace]

lemma find_replace (l : List LoadedRepository) (r : LoadedRepository)
    (h : keyMem (getRepositoryKey r) l = true) :
    (l.map (fun x => if getRepositoryKey x == getRepositoryKey r then r else x)).find?
      (fun x => getRepositoryKey x == getRepositoryKey r) = some r := by
  induction l with
  | nil => simp [keyMem] at h
  | cons x xs ih =>
    by_cases hx : (getRepositoryKey x == getRepositoryKey r) = true
    · simp only [List.map_cons, if_pos hx]
      exact List.find?_cons_of_pos _ (by simp)
    · simp only [List.map_cons, if_neg hx]
      have hxb : (getRepositoryKey x == getRepositoryKey r) = false := by simpa using hx
      rw [List.find?_cons, hxb]
      apply ih
      simp only [keyMem, List.any_cons, Bool.or_eq_true] at h
      rcases h with h | h
      · exact absurd h hx
      · simpa [keyMem] using h

lemma reachable_preview_nodup {st : SoundStore} (h : Reachable st) :
    (st.previewRepositories.map getRepositoryKey).Nodup := by
  induction h with
  | init => simp [initialStore]
  | @addPreview st r _ ih =>
    by_cases hc : keyMem (getRepositoryKey r) st.previewRepositories = true
    · rw [addPreview_def, if_pos hc]
      show (((st.previewRepositories.map
          (fun x => if getRepositoryKey x == getRepositoryKey r then r else x)).map
          getRepositoryKey)).Nodup
      rw [map_key_replace]
      exact ih
    · rw [addPreview_def, if_neg hc]
      simp only [List.map_append, List.map_cons, List.map_nil]
      rw [List.nodup_append]
      refine ⟨ih, List.nodup_singleton _, ?_⟩
      intro a ha hb
      simp only [List.mem_singleton] at hb
      subst hb
      exact hc ((keyMem_iff_mem_map _ _).mpr ha)
  | @removePreview st k _ ih =>
    exact List.Nodup.sublist (List.Sublist.map _ (List.filter_sublist _)) ih
  | @clearPreviews st _ ih => simp [clearPreviews]
  | @saveRepository st r _ ih =>
    rw [saveRepository_def]
    by_cases hc : keyMem (getRepositoryKey r) st.savedRepositories = true
    · rw [if_pos hc]; exact ih
    · rw [if_neg hc]
      exact List.Nodup.sublist (List.Sublist.map _ (List.filter_sublist _)) ih
  | @unsaveRepository st k _ ih => exact ih
  | @setCurrentlyPlaying st s _ ih => exact ih
  | @importRepositories st rs _ ih => exact ih
  | @importBlocklist st bs _ ih => exact ih
  | @importCustomUrls st cs _ ih => exact ih
  | @toggleCollapsed st k _ ih =>
    have hp : (toggleCollapsed st k).previewRepositories = st.previewRepositories := by
      simp only [toggleCollapsed]
      split <;> rfl
    rw [hp]
    exact ih
  | @blockRepository st k _ ih =>
    exact List.Nodup.sublist (List.Sublist.map _ (List.filter_sublist _)) ih
  | @unblockRepository st k _ ih => exact ih
  | @clearBlocklist st _ ih => exact ih

/-- Claim C8: for every reachable store state, calling `addPreview` twice
with repositories sharing one key leaves Preview with exactly one entry
for that key, holding the payload of the second call, replaced in place
(the key sequence of Preview is unchanged by the second call); and the
preview of every reachable state never holds two entries with the same
key. -/
theorem addPreview_idempotent (st : SoundStore) (h : Reachable st)
    (r1 r2 : LoadedRepository) (hk : getRepositoryKey r1 = getRepositoryKey r2) :
    countKey (getRepositoryKey r2) (addPreview (addPreview st r1) r2).previewRepositories = 1 ∧
    getPreviewRepository (addPreview (addPreview st r1) r2) (getRepositoryKey r2) = some r2 ∧
    ((addPreview (addPreview st r1) r2).previewRepositories.map getRepositoryKey =
      (addPreview st r1).previewRepositories.map getRepositoryKey) ∧
    (∀ st' : SoundStore, Reachable st' →
      (st'.previewRepositories.map getRepositoryKey).Nodup) := by
  have h1 : Reachable (addPreview st r1) := Reachable.addPreview r1 h
  have hmem : keyMem (getRepositoryKey r2) (addPreview st r1).previewRepositories = true := by
    rw [← hk]; exact keyMem_addPreview_self st r1
  have hnd1 : ((addPreview st r1).previewRepositories.map getRepositoryKey).Nodup :=
    reachable_preview_nodup h1
  rw [addPreview_def (addPreview st r1) r2, if_pos hmem]
  refine ⟨?_, ?_, map_key_replace _ _, fun st' h' => reachable_preview_nodup h'⟩
  · rw [show ({ addPreview st r1 with
        previewRepositories := ((addPreview st r1).previewRepositories.map
          (fun repo => if getRepositoryKey repo == getRepositoryKey r2 then r2 else repo)) } :
          SoundStore).previewRepositories =
        ((addPreview st r1).previewRepositories.map
          (fun repo => if getRepositoryKey repo == getRepositoryKey r2 then r2 else repo)) from rfl]
    rw [countKey_replace, countKey_eq_count]
    have hle := List.nodup_iff_count_le_one.mp hnd1 (getRepositoryKey r2)
    have hpos : 0 < ((addPreview st r1).previewRepositories.map getRepositoryKey).count
        (getRepositoryKey r2) :=
      List.count_pos_iff.mpr ((keyMem_iff_mem_map _ _).mp hmem)
    omega
  · exact find_replace _ _ hmem

/-- Claim C10: for every sound list and sort criterion, `sortSounds`
returns a permutation of its input (same elements with the same
multiplicities); the source sorts a spread copy, so the input array
itself is left as it was. -/
theorem sortSounds_perm (sounds : List Sound) (sortBy : SortBy) :
    (sortSounds sounds sortBy).Perm sounds ∧
    (∀ s : Sound, (sortSounds sounds sortBy).count s = sounds.count s) :=
  ⟨List.mergeSort_perm _ _, fun s => (List.mergeSort_perm _ _).count_eq s⟩

lemma emitCategory_arr_mem (baseUrl owner repo filePath category : String)
    (l : List JsonValue) (s : Sound)
    (hs : s ∈ emitCategory baseUrl owner repo filePath category (.arr l)) :
    ∃ i str, i < l.length ∧ (i, JsonValue.str str) ∈ l.enum ∧ jsTrim str ≠ "" ∧
      s = { id := owner ++ "/" ++ repo ++ "/" ++ category ++ "/" ++ natToString i
            name := category ++ (if l.length > 1 then "-" ++ natToString (i + 1) else "")
            url := resolveUrl baseUrl (jsTrim str)
            category := some category
            repository := owner ++ "/" ++ repo
            owner := owner
            path := filePath } := by
  simp only [emitCategory] at hs
  rw [List.mem_filterMap] at hs
  obtain ⟨⟨i, u⟩, hmem, hf⟩ := hs
  cases u with
  | str str =>
    dsimp only at hf
    by_cases ht : jsTrim str != ""
    · rw [if_pos ht] at hf
      refine ⟨i, str, (List.mem_enum hmem).1, hmem, by simpa using ht, ?_⟩
      exact (Option.some_inj.mp hf).symm
    · rw [if_neg ht] at hf
      exact absurd hf (by simp)
  | null => exact absurd hf (by simp)
  | bool b => exact absurd hf (by simp)
  | num n => exact absurd hf (by simp)
  | arr xs => exact absurd hf (by simp)
  | obj fs => exact absurd hf (by simp)

/-- Claim C3: the manifest
`{"_base":"https://cdn.example/","sounds":{"kick":["k1.wav","https://other.cdn/k2.wav"]}}`
for owner `acme`, repo `drums`, path `strudel.json` yields exactly the two
sounds `acme/drums/kick/0` (`kick-1`, `https://cdn.example/k1.wav`) and
`acme/drums/kick/1` (`kick-2`, `https://other.cdn/k2.wav`); and in
general, within a category, a one-element URL array keeps the bare
category name while a multi-element array names element `i` (0-based
position in the array) `"<category>-<i+1>"` with id
`"<owner>/<repo>/<category>/<i>"`. -/
theorem extractSounds_end_to_end :
    extractSounds c3manifest "acme" "drums" "strudel.json" =
      .ok [{ id := "acme/drums/kick/0", name := "kick-1",
             url := "https://cdn.example/k1.wav", category := some "kick",
             repository := "acme/drums", owner := "acme", path := "strudel.json" },
           { id := "acme/drums/kick/1", name := "kick-2",
             url := "https://other.cdn/k2.wav", category := some "kick",
             repository := "acme/drums", owner := "acme", path := "strudel.json" }] ∧
    (∀ (baseUrl owner repo filePath category : String) (l : List JsonValue) (s : Sound),
      s ∈ emitCategory baseUrl owner repo filePath category (.arr l) →
      (l.length = 1 → s.name = category) ∧
      (1 < l.length → ∃ i, i < l.length ∧
        s.name = category ++ "-" ++ natToString (i + 1) ∧
        s.id = owner ++ "/" ++ repo ++ "/" ++ category ++ "/" ++ natToString i)) := by
  refine ⟨by rfl, ?_⟩
  intro baseUrl owner repo filePath category l s hs
  obtain ⟨i, str, hlen, _, _, hrec⟩ := emitCategory_arr_mem _ _ _ _ _ _ _ hs
  constructor
  · intro h1
    subst hrec
    simp only
    rw [if_neg (by omega)]
    simp
  · intro h1
    subst hrec
    refine ⟨i, hlen, ?_, rfl⟩
    simp only
    rw [if_pos (by omega), String.append_assoc]

/-- Claim C6, counterexample: the claim says `extract` never raises for
any input manifest value, but on the manifest `null` (valid JSON) the
very first property access `strudelJson._base` throws a TypeError. -/
theorem extractSounds_null_raises :
    (extractSounds .null "owner" "repo" "strudel.json").isOk = false := by rfl

lemma filterMap_enumFrom_length {β : Type} (g : Nat → JsonValue → Option β)
    (hg : ∀ n u, (g n u).isSome = isEmittable u) :
    ∀ (l : List JsonValue) (n : Nat),
      ((List.enumFrom n l).filterMap (fun p => g p.1 p.2)).length
        = (l.filter isEmittable).length := by
  intro l
  induction l with
  | nil => intro n; rfl
  | cons u us ih =>
    intro n
    rw [List.enumFrom_cons, List.filterMap_cons, List.filter_cons]
    cases hgu : g n u with
    | some b =>
      have hE : isEmittable u = true := by rw [← hg n u, hgu]; rfl
      simp [hE, ih]
    | none =>
      have hE : isEmittable u = false := by rw [← hg n u, hgu]; rfl
      simp [hE, ih]

lemma emitCategory_length (baseUrl owner repo filePath category : String)
    (l : List JsonValue) :
    (emitCategory baseUrl owner repo filePath category (.arr l)).length
      = (l.filter isEmittable).length := by
  have h := filterMap_enumFrom_length
    ((fun i u => match u with
      | .str s =>
        if jsTrim s != "" then
          some
            { id := owner ++ "/" ++ repo ++ "/" ++ category ++ "/" ++ natToString i
              name := category ++ (if l.length > 1 then "-" ++ natToString (i + 1) else "")
              url := resolveUrl baseUrl (jsTrim s)
              category := some category
              repository := owner ++ "/" ++ repo
              owner := owner
              path := filePath }
        else none
      | _ => none) : Nat → JsonValue → Option Sound)
    (by
      intro n u
      cases u with
      | str a =>
        by_cases ht : (jsTrim a != "") = true
        · simp [isEmittable, ht]
        · simp [isEmittable, ht]
      | null => rfl
      | bool b => rfl
      | num m => rfl
      | arr xs => rfl
      | obj fs => rfl)
    l 0
  exact h

/-- Claim C6, amended: for every manifest value other than JSON `null`,
`extractSounds` never raises; within a category the number of emitted
records equals the number of entries that are strings with non-blank
trimmed text, and a category whose only entry is empty, whitespace-only
or not a string emits no record and no error. -/
theorem extractSounds_total_amended :
    (∀ (v : JsonValue) (o r p : String), v ≠ .null → (extractSounds v o r p).isOk = true) ∧
    (∀ (baseUrl o r p category : String) (l : List JsonValue),
      (emitCategory baseUrl o r p category (.arr l)).length
        = (l.filter isEmittable).length) ∧
    (∀ (baseUrl o r p category : String) (u : JsonValue), isEmittable u = false →
      emitCategory baseUrl o r p category (.arr [u]) = []) := by
  refine ⟨?_, emitCategory_length, ?_⟩
  · intro v o r p hv
    cases v <;> first
      | exact absurd rfl hv
      | (simp only [extractSounds]
         split
         · split <;> rfl
         · rfl)
  · intro baseUrl o r p category u hu
    cases u with
    | str s =>
      have hs : jsTrim s = "" := by simpa [isEmittable] using hu
      simp [emitCategory, hs]
    | null => rfl
    | bool b => rfl
    | num n => rfl
    | arr xs => rfl
    | obj fs => rfl

lemma extractSounds_obj_sounds (fields m : List (String × JsonValue)) (o r p : String)
    (h : (JsonValue.obj fields).getField "sounds" = some (.obj m)) :
    extractSounds (.obj fields) o r p =
      .ok ((JsonValue.obj m).jsEntries.flatMap (fun q =>
        emitCategory (manifestBase (.obj fields)) o r p q.1 q.2)) := by
  have hs : manifestSoundsData (.obj fields) = some (.obj m) := by
    simp [manifestSoundsData, h, JsonValue.truthy]
  simp [extractSounds, hs, JsonValue.truthy, typeofIsObject]

/-- Claim C9: when both a `sounds` mapping and a `samples` property are
present, only the `sounds` mapping is used —
`extract({sounds:{a:["x"]},samples:{b:["y"]}})` yields exactly one sound
with category `a`, and in general the result depends only on `_base` and
the `sounds` mapping, so `samples` is ignored entirely. -/
theorem extractSounds_sounds_precedence :
    extractSounds (.obj [("sounds", .obj [("a", .arr [.str "x"])]),
                         ("samples", .obj [("b", .arr [.str "y"])])]) "o" "r" "p" =
      .ok [{ id := "o/r/a/0", name := "a", url := "x", category := some "a",
             repository := "o/r", owner := "o", path := "p" }] ∧
    (∀ (f1 f2 m : List (String × JsonValue)) (o r p : String),
      (JsonValue.obj f1).getField "sounds" = some (.obj m) →
      (JsonValue.obj f2).getField "sounds" = some (.obj m) →
      manifestBase (.obj f1) = manifestBase (.obj f2) →
      extractSounds (.obj f1) o r p = extractSounds (.obj f2) o r p) := by
  refine ⟨by rfl, ?_⟩
  intro f1 f2 m o r p h1 h2 hb
  rw [extractSounds_obj_sounds f1 m o r p h1, extractSounds_obj_sounds f2 m o r p h2, hb]

/-- Claim C9, witness: removing the `samples` property from a manifest
with a `sounds` mapping does not change the extraction result. -/
theorem extractSounds_sounds_precedence_witness :
    extractSounds (.obj [("sounds", .obj [("a", .arr [.str "x"])]),
                         ("samples", .obj [("b", .arr [.str "y"])])]) "o" "r" "p" =
      extractSounds (.obj [("sounds", .obj [("a", .arr [.str "x"])])]) "o" "r" "p" :=
  extractSounds_sounds_precedence.2
    [("sounds", .obj [("a", .arr [.str "x"])]), ("samples", .obj [("b", .arr [.str "y"])])]
    [("sounds", .obj [("a", .arr [.str "x"])])]
    [("a", .arr [.str "x"])] "o" "r" "p" rfl rfl rfl

lemma decodeSound_encodeSound (s : Sound) : decodeSound (encodeSound s) = some s := by
  cases s with
  | mk id name url category repository owner path =>
    cases category with
    | none => rfl
    | some c => rfl

lemma decodeList_decodeSound (l : List Sound) :
    decodeList decodeSound (l.map encodeSound) = some l := by
  induction l with
  | nil => rfl
  | cons s ss ih => simp [decodeList, decodeSound_encodeSound, ih]

lemma decodeRepo_encodeRepo (r : LoadedRepository) : decodeRepo (encodeRepo r) = some r := by
  cases r with
  | mk o re pa br su ru so la =>
    simp [decodeRepo, encodeRepo, getStrField, JsonValue.getField, decodeList_decodeSound]

lemma decodeList_decodeRepo (l : List LoadedRepository) :
    decodeList decodeRepo (l.map encodeRepo) = some l := by
  induction l with
  | nil => rfl
  | cons r rs ih => simp [decodeList, decodeRepo_encodeRepo, ih]

lemma decodeList_decodeStr (l : List String) :
    decodeList decodeStr (l.map JsonValue.str) = some l := by
  induction l with
  | nil => rfl
  | cons x xs ih => simp [decodeList, decodeStr, ih]

lemma decodeCustomUrl_encodeCustomUrl (c : CustomUrlRepository) :
    decodeCustomUrl (encodeCustomUrl c) = some c := by
  cases c with
  | mk url name => rfl

lemma decodeList_decodeCustomUrl (l : List CustomUrlRepository) :
    decodeList decodeCustomUrl (l.map encodeCustomUrl) = some l := by
  induction l with
  | nil => rfl
  | cons c cs ih => simp [decodeList, decodeCustomUrl_encodeCustomUrl, ih]

/-- Claim C4: for every non-empty saved list, blocklist and custom-URL
list, deserializing the serialized export succeeds and returns the
envelope unchanged; its `repositories`, `blocklist` and `customUrls`
fields are exactly the encodings of the inputs in order, and decoding
them recovers the inputs exactly. -/
theorem export_import_roundtrip (t : String) (s : List LoadedRepository)
    (b : List String) (c : List CustomUrlRepository)
    (_hs : s ≠ []) (_hb : b ≠ []) (_hc : c ≠ []) :
    parseImportData (some (exportToJson t s b c)) = .ok (exportToJson t s b c) ∧
    (exportToJson t s b c).getField "repositories" = some (.arr (s.map encodeRepo)) ∧
    (exportToJson t s b c).getField "blocklist" = some (.arr (b.map JsonValue.str)) ∧
    (exportToJson t s b c).getField "customUrls" = some (.arr (c.map encodeCustomUrl)) ∧
    decodeList decodeRepo (s.map encodeRepo) = some s ∧
    decodeList decodeStr (b.map JsonValue.str) = some b ∧
    decodeList decodeCustomUrl (c.map encodeCustomUrl) = some c := by
  refine ⟨by rfl, by rfl, by rfl, by rfl, decodeList_decodeRepo s, decodeList_decodeStr b,
    decodeList_decodeCustomUrl c⟩

lemma truthy_of_isArray {v : JsonValue} (h : isArrayOpt (v.getField "repositories") = true) :
    truthyOpt (v.getField "repositories") = true := by
  cases hv : v.getField "repositories" with
  | none => rw [hv] at h; exact absurd h (by simp [isArrayOpt])
  | some x => rw [hv] at h; cases x <;> simp_all [isArrayOpt, truthyOpt, JsonValue.truthy]

lemma parseImportData_some_ne_null (v : JsonValue) (hv : v ≠ .null) :
    parseImportData (some v) =
      if !truthyOpt (v.getField "version") || !truthyOpt (v.getField "repositories")
          || !isArrayOpt (v.getField "repositories") then
        .error "Failed to parse import data: Invalid export data format"
      else .ok (defaultEmptyArray (defaultEmptyArray v "blocklist") "customUrls") := by
  cases v <;> first | exact absurd rfl hv | rfl

lemma getField_none_any (fields : List (String × JsonValue)) (k : String)
    (h : (JsonValue.obj fields).getField k = none) :
    fields.any (fun p => p.1 == k) = false := by
  simp only [JsonValue.getField, Option.map_eq_none'] at h
  rw [List.find?_eq_none] at h
  simp only [List.any_eq_false]
  exact h

lemma getField_append (fields extra : List (String × JsonValue)) (k : String)
    (h : (JsonValue.obj fields).getField k = none) :
    (JsonValue.obj (fields ++ extra)).getField k = (JsonValue.obj extra).getField k := by
  simp only [JsonValue.getField, Option.map_eq_none'] at h
  simp only [JsonValue.getField, List.find?_append, h, Option.none_or]

lemma defaultEmptyArray_of_none (fields : List (String × JsonValue)) (k : String)
    (h : (JsonValue.obj fields).getField k = none) :
    defaultEmptyArray (.obj fields) k = .obj (fields ++ [(k, .arr [])]) := by
  simp [defaultEmptyArray, h, truthyOpt, objSetField, getField_none_any fields k h]

lemma getField_singleton_self (k : String) (v : JsonValue) :
    (JsonValue.obj [(k, v)]).getField k = some v := by
  simp only [JsonValue.getField]
  rw [List.find?_cons_of_pos _ (by simp)]
  rfl

lemma find?_map_replace (fields : List (String × JsonValue)) (k k2 : String) (v : JsonValue)
    (h : k2 ≠ k) :
    (fields.map (fun p => if p.1 == k then (k, v) else p)).find? (fun p => p.1 == k2)
      = fields.find? (fun p => p.1 == k2) := by
  induction fields with
  | nil => rfl
  | cons q qs ih =>
    simp only [List.map_cons]
    by_cases hq : (q.1 == k) = true
    · rw [if_pos hq]
      have e1 : (k == k2) = false := beq_eq_false_iff_ne.mpr (Ne.symm h)
      have e2 : (q.1 == k2) = false := by rw [beq_iff_eq.mp hq]; exact e1
      rw [List.find?_cons, List.find?_cons]
      simp only [e1, e2]
      exact ih
    · rw [if_neg hq]
      rw [List.find?_cons, List.find?_cons]
      by_cases hq2 : (q.1 == k2) = true
      · simp only [hq2]
      · have hq2f : (q.1 == k2) = false := by simpa using hq2
        simp only [hq2f]
        exact ih

lemma getField_objSetField_other (fields : List (String × JsonValue)) (k k2 : String)
    (v : JsonValue) (h : k2 ≠ k) :
    (JsonValue.obj (objSetField fields k v)).getField k2
      = (JsonValue.obj fields).getField k2 := by
  simp only [objSetField]
  by_cases ha : fields.any (fun p => p.1 == k) = true
  · rw [if_pos ha]
    simp only [JsonValue.getField]
    rw [find?_map_replace fields k k2 v h]
  · rw [if_neg ha]
    simp only [JsonValue.getField, List.find?_append]
    have hs : ([(k, v)].find? (fun p => p.1 == k2)) = none := by
      have e1 : (k == k2) = false := beq_eq_false_iff_ne.mpr (Ne.symm h)
      rw [List.find?_cons]
      simp only [e1]
      rfl
    rw [hs, Option.or_none]

lemma getField_defaultEmptyArray_other (v : JsonValue) (k k2 : String) (h : k2 ≠ k) :
    (defaultEmptyArray v k).getField k2 = v.getField k2 := by
  simp only [defaultEmptyArray]
  by_cases ht : truthyOpt (v.getField k) = true
  · rw [if_pos ht]
  · rw [if_neg ht]
    cases v with
    | obj fields => exact getField_objSetField_other fields k k2 _ h
    | null => rfl
    | bool b => rfl
    | num n => rfl
    | str s2 => rfl
    | arr xs => rfl

lemma defaultEmptyArray_obj (fields : List (String × JsonValue)) (k : String) :
    ∃ fields2, defaultEmptyArray (.obj fields) k = .obj fields2 := by
  simp only [defaultEmptyArray]
  by_cases ht : truthyOpt ((JsonValue.obj fields).getField k) = true
  · rw [if_pos ht]; exact ⟨fields, rfl⟩
  · rw [if_neg ht]; exact ⟨objSetField fields k (.arr []), rfl⟩

lemma getField_defaultEmptyArray_self_of_none (fields : List (String × JsonValue)) (k : String)
    (h : (JsonValue.obj fields).getField k = none) :
    (defaultEmptyArray (.obj fields) k).getField k = some (.arr []) := by
  rw [defaultEmptyArray_of_none fields k h, getField_append fields _ _ h]
  exact getField_singleton_self k _

lemma isOk_error {α : Type} (e : String) : (Except.error e : Except String α).isOk = false := rfl

lemma isOk_ok {α : Type} (a : α) : (Except.ok a : Except String α).isOk = true := rfl

/-- Claim C5: `parseImportData` fails exactly when the input is not valid
JSON, lacks a truthy `version` field, or lacks an array-typed
`repositories` field; on failure the import flow leaves the store
untouched; an otherwise valid payload succeeds, and each of `blocklist`
and `customUrls` that is missing — independently of the other — comes
back defaulted to the empty array, with `repositories` and `version`
unchanged; when both are missing the output is the input object with
exactly the two empty-array fields appended. -/
theorem parseImportData_validation :
    (∀ input : Option JsonValue,
      (parseImportData input).isOk = false ↔
        (input = none ∨ ∃ v, input = some v ∧
          (hasTruthyVersion v = false ∨ hasArrayRepositories v = false))) ∧
    (∀ (st : SoundStore) (input : Option JsonValue),
      (parseImportData input).isOk = false → confirmImport st input = st) ∧
    (∀ fields : List (String × JsonValue),
      hasTruthyVersion (.obj fields) = true →
      hasArrayRepositories (.obj fields) = true →
      ∃ out, parseImportData (some (.obj fields)) = .ok out ∧
        ((JsonValue.obj fields).getField "blocklist" = none →
          out.getField "blocklist" = some (.arr [])) ∧
        ((JsonValue.obj fields).getField "customUrls" = none →
          out.getField "customUrls" = some (.arr [])) ∧
        out.getField "repositories" = (JsonValue.obj fields).getField "repositories" ∧
        out.getField "version" = (JsonValue.obj fields).getField "version") ∧
    (∀ fields : List (String × JsonValue),
      hasTruthyVersion (.obj fields) = true →
      hasArrayRepositories (.obj fields) = true →
      (JsonValue.obj fields).getField "blocklist" = none →
      (JsonValue.obj fields).getField "customUrls" = none →
      parseImportData (some (.obj fields)) =
        .ok (.obj (fields ++ [("blocklist", .arr []), ("customUrls", .arr [])])) ∧
      (JsonValue.obj (fields ++ [("blocklist", .arr []), ("customUrls", .arr [])])).getField
        "blocklist" = some (.arr []) ∧
      (JsonValue.obj (fields ++ [("blocklist", .arr []), ("customUrls", .arr [])])).getField
        "customUrls" = some (.arr []) ∧
      (JsonValue.obj (fields ++ [("blocklist", .arr []), ("customUrls", .arr [])])).getField
        "repositories" = (JsonValue.obj fields).getField "repositories") := by
  refine ⟨?_, ?_, ?_, ?_⟩
  · intro input
    cases input with
    | none => simp [parseImportData, isOk_error]
    | some v =>
      by_cases hv : v = JsonValue.null
      · subst hv
        simp [parseImportData, hasTruthyVersion, JsonValue.getField, truthyOpt, isOk_error]
      · rw [parseImportData_some_ne_null v hv]
        by_cases htv : hasTruthyVersion v = true
        · by_cases har : hasArrayRepositories v = true
          · have htr := truthy_of_isArray har
            have htv2 := htv
            have har2 := har
            simp only [hasTruthyVersion] at htv2
            simp only [hasArrayRepositories] at har2
            rw [if_neg (by simp [htv2, htr, har2])]
            simp [isOk_ok]
            exact ⟨htv, har⟩
          · have har' : hasArrayRepositories v = false := by simpa using har
            have har2 := har'
            simp only [hasArrayRepositories] at har2
            rw [if_pos (by simp [har2])]
            simp [isOk_error]
            exact Or.inr har'
        · have htv' : hasTruthyVersion v = false := by simpa using htv
          have htv2 := htv'
          simp only [hasTruthyVersion] at htv2
          rw [if_pos (by simp [htv2])]
          simp [isOk_error]
          exact Or.inl htv'
  · intro st input h
    cases hp : parseImportData input with
    | error e => simp [confirmImport, hp]
    | ok d =>
      rw [hp, isOk_ok] at h
      exact Bool.noConfusion h
  · intro fields htv har
    have htr := truthy_of_isArray har
    have htv2 := htv
    have har2 := har
    simp only [hasTruthyVersion] at htv2
    simp only [hasArrayRepositories] at har2
    refine ⟨defaultEmptyArray (defaultEmptyArray (.obj fields) "blocklist") "customUrls",
      ?_, ?_, ?_, ?_, ?_⟩
    · rw [parseImportData_some_ne_null _ (by simp)]
      rw [if_neg (by simp [htv2, htr, har2])]
    · intro hb
      rw [getField_defaultEmptyArray_other _ _ _ (by decide)]
      exact getField_defaultEmptyArray_self_of_none fields _ hb
    · intro hc
      obtain ⟨fields1, hf1⟩ := defaultEmptyArray_obj fields "blocklist"
      have hcu1 : (defaultEmptyArray (.obj fields) "blocklist").getField "customUrls"
          = none := by
        rw [getField_defaultEmptyArray_other _ _ _ (by decide)]
        exact hc
      rw [hf1] at hcu1
      rw [hf1]
      exact getField_defaultEmptyArray_self_of_none fields1 _ hcu1
    · rw [getField_defaultEmptyArray_other _ _ _ (by decide),
          getField_defaultEmptyArray_other _ _ _ (by decide)]
    · rw [getField_defaultEmptyArray_other _ _ _ (by decide),
          getField_defaultEmptyArray_other _ _ _ (by decide)]
  · intro fields htv har h3 h4
    have hbl : defaultEmptyArray (.obj fields) "blocklist"
        = .obj (fields ++ [("blocklist", .arr [])]) := defaultEmptyArray_of_none fields _ h3
    have hcu0 : (JsonValue.obj (fields ++ [("blocklist", .arr [])])).getField "customUrls"
        = none := by
      rw [getField_append fields _ _ h4]; rfl
    have hcu : defaultEmptyArray (.obj (fields ++ [("blocklist", .arr [])])) "customUrls"
        = .obj ((fields ++ [("blocklist", .arr [])]) ++ [("customUrls", .arr [])]) :=
      defaultEmptyArray_of_none _ _ hcu0
    have hassoc : (fields ++ [("blocklist", JsonValue.arr [])]) ++ [("customUrls", JsonValue.arr [])]
        = fields ++ [("blocklist", JsonValue.arr []), ("customUrls", JsonValue.arr [])] := by
      rw [List.append_assoc]; rfl
    refine ⟨?_, ?_, ?_, ?_⟩
    · rw [parseImportData_some_ne_null _ (by simp)]
      have htr := truthy_of_isArray har
      have har' := har
      simp only [hasTruthyVersion] at htv
      simp only [hasArrayRepositories] at har'
      rw [if_neg (by simp [htv, htr, har'])]
      rw [hbl, hcu, hassoc]
    · rw [getField_append fields _ _ h3]; rfl
    · rw [getField_append fields _ _ h4]; rfl
    · simp only [JsonValue.getField, List.find?_append]
      cases hf : fields.find? (fun p => p.1 == "repositories") with
      | none => simp [hf]
      | some pr => simp [hf]

/-- Claim C7: rehydration is total over every stored text (absent,
corrupt, or parsed); corrupt stored data makes `storage.getItem` throw,
the persist harness treats it exactly like absent data, and the store
starts with all collections empty. -/
theorem rehydrate_corrupt_spec :
    rehydrate .corrupt = initialStore ∧
    rehydrate .corrupt = rehydrate .absent ∧
    (∀ stored : StoredText, (storageGetItem stored).isOk = false →
      rehydrate stored = initialStore) ∧
    initialStore.previewRepositories = [] ∧
    initialStore.savedRepositories = [] ∧
    initialStore.collapsedRepos = [] ∧
    initialStore.blockedRepos = [] ∧
    initialStore.customUrls = [] := by
  refine ⟨rfl, rfl, ?_, rfl, rfl, rfl, rfl, rfl⟩
  intro stored h
  cases hg : storageGetItem stored with
  | error e => simp [rehydrate, hg]
  | ok v =>
    rw [hg, isOk_ok] at h
    exact Bool.noConfusion h

/-- Claim C7, witness: rehydrating from corrupt stored text yields the
initial store. -/
theorem rehydrate_corrupt_spec_witness :
    rehydrate .corrupt = initialStore :=
  rehydrate_corrupt_spec.2.2.1 .corrupt (by rfl)

/-- Claim C3, witness: the general naming rule applied to the concrete
two-element `kick` category of the scenario manifest. -/
theorem extractSounds_end_to_end_witness :
    ∃ i, i < 2 ∧
      ({ id := "acme/drums/kick/0", name := "kick-1", url := "https://cdn.example/k1.wav",
         category := some "kick", repository := "acme/drums", owner := "acme",
         path := "strudel.json" } : Sound).name = "kick" ++ "-" ++ natToString (i + 1) ∧
      ({ id := "acme/drums/kick/0", name := "kick-1", url := "https://cdn.example/k1.wav",
         category := some "kick", repository := "acme/drums", owner := "acme",
         path := "strudel.json" } : Sound).id
        = "acme" ++ "/" ++ "drums" ++ "/" ++ "kick" ++ "/" ++ natToString i :=
  (extractSounds_end_to_end.2 "https://cdn.example/" "acme" "drums" "strudel.json" "kick"
    [.str "k1.wav", .str "https://other.cdn/k2.wav"]
    { id := "acme/drums/kick/0", name := "kick-1", url := "https://cdn.example/k1.wav",
      category := some "kick", repository := "acme/drums", owner := "acme",
      path := "strudel.json" }
    (by decide)).2 (by decide)

/-- Claim C6, witness: a numeric manifest extracts without raising, and a
whitespace-only URL entry is skipped silently. -/
theorem extractSounds_total_amended_witness :
    (extractSounds (.num 5) "o" "r" "p").isOk = true ∧
    emitCategory "" "o" "r" "p" "c" (.arr [.str " "]) = [] :=
  ⟨extractSounds_total_amended.1 (.num 5) "o" "r" "p" (by simp),
   extractSounds_total_amended.2.2 "" "o" "r" "p" "c" (.str " ") (by rfl)⟩

/-- Claim C4, witness: the round trip at a concrete export of one saved
repository, one blocked key and one custom URL. -/
theorem export_import_roundtrip_witness :
    parseImportData (some (exportToJson "2024-01-01T00:00:00.000Z" [wRepo] ["x/y/z"]
        [{ url := "https://example.com/strudel.json", name := "ex" }])) =
      .ok (exportToJson "2024-01-01T00:00:00.000Z" [wRepo] ["x/y/z"]
        [{ url := "https://example.com/strudel.json", name := "ex" }]) ∧
    decodeList decodeRepo ([wRepo].map encodeRepo) = some [wRepo] :=
  ⟨(export_import_roundtrip "2024-01-01T00:00:00.000Z" [wRepo] ["x/y/z"]
      [{ url := "https://example.com/strudel.json", name := "ex" }]
      (by simp) (by simp) (by simp)).1,
   (export_import_roundtrip "2024-01-01T00:00:00.000Z" [wRepo] ["x/y/z"]
      [{ url := "https://example.com/strudel.json", name := "ex" }]
      (by simp) (by simp) (by simp)).2.2.2.2.1⟩

/-- Claim C5, witness: failure on invalid JSON leaves the initial store
untouched; a version-2.0 payload carrying a blocklist but no `customUrls`
field parses with `customUrls` defaulted to the empty array; and a
version-1.0 payload missing both fields parses to empty defaults. -/
theorem parseImportData_validation_witness :
    (parseImportData none).isOk = false ∧
    confirmImport initialStore none = initialStore ∧
    (∃ out, parseImportData (some (.obj [("version", .str "2.0"), ("repositories", .arr []),
        ("blocklist", .arr [.str "a/b/c"])])) = .ok out ∧
      out.getField "customUrls" = some (.arr [])) ∧
    parseImportData (some (.obj [("version", .str "1.0"), ("repositories", .arr [])])) =
      .ok (.obj [("version", .str "1.0"), ("repositories", .arr []),
                 ("blocklist", .arr []), ("customUrls", .arr [])]) := by
  refine ⟨(parseImportData_validation.1 none).mpr (Or.inl rfl),
    parseImportData_validation.2.1 initialStore none
      ((parseImportData_validation.1 none).mpr (Or.inl rfl)), ?_,
    (parseImportData_validation.2.2.2 [("version", .str "1.0"), ("repositories", .arr [])]
      rfl rfl rfl rfl).1⟩
  obtain ⟨out, h1, _, h3, _, _⟩ := parseImportData_validation.2.2.1
    [("version", .str "2.0"), ("repositories", .arr []), ("blocklist", .arr [.str "a/b/c"])]
    rfl rfl
  exact ⟨out, h1, h3 rfl⟩

/-- Claim C8, witness: the theorem applied at the initial store with two
repositories sharing a key but carrying different sounds. -/
theorem addPreview_idempotent_witness :
    countKey (getRepositoryKey wRepo2)
      (addPreview (addPreview initialStore wRepo) wRepo2).previewRepositories = 1 ∧
    getPreviewRepository (addPreview (addPreview initialStore wRepo) wRepo2)
      (getRepositoryKey wRepo2) = some wRepo2 :=
  ⟨(addPreview_idempotent initialStore Reachable.init wRepo wRepo2 rfl).1,
   (addPreview_idempotent initialStore Reachable.init wRepo wRepo2 rfl).2.1⟩
